import Mathlib

/-!
Shallow embedding of the retrieval engine in `utils/pgvector_db.py`.

The store (PostgreSQL + pgvector) is modelled as two in-memory tables kept in
insertion order: `chat_history` rows and `pdf_embeddings` rows.  External
primitives are modelled as explicit inputs:

* the OpenAI embedding calls (`embed_query` / `embed_documents`) as an
  `Option` argument (`none` = the call raised an exception);
* the wall clock `time.time()` as a rational timestamp argument;
* the pgvector `cosine_distance` operator as an abstract distance assignment
  `d : List ℚ → ℚ` on embedding vectors;
* a SQLAlchemy session as a staged set of deletes/inserts that is either
  committed or rolled back, matching the `try/commit/except/rollback` blocks;
* SQL `ORDER BY key LIMIT k` as a *relation*: SQL fixes the key order but
  leaves the relative order of equal keys unspecified, so query results are
  characterised by a validity predicate rather than a function.

Row identity (the `uuid4` primary key) is modelled by an insertion sequence
number `seq`, which also records creation order.
-/

/-- Python values that can sit in a `Document.metadata` dict for the keys this
module reads (`user_id`, `filename`, `source`, `is_public`): strings and ints. -/
inductive PyVal where
  | str : String → PyVal
  | int : Int → PyVal
deriving DecidableEq

/-- `dict.get(key, default)` on an association-list model of a Python dict. -/
def metaGet (m : List (String × PyVal)) (key : String) (dflt : PyVal) : PyVal :=
  match m.find? (fun kv => kv.1 == key) with
  | some kv => kv.2
  | none => dflt

/-- Python `str()` of one metadata value, as `str(dict)` renders it. -/
def pyReprVal : PyVal → String
  | PyVal.str s => "\x27" ++ s ++ "\x27"
  | PyVal.int n => toString n

/-- Python `str()` of the entries of a dict, comma separated. -/
def pyReprEntries : List (String × PyVal) → String
  | [] => ""
  | [(k, v)] => "\x27" ++ k ++ "\x27: " ++ pyReprVal v
  | (k, v) :: rest => "\x27" ++ k ++ "\x27: " ++ pyReprVal v ++ ", " ++ pyReprEntries rest

/-- Python `str(chunk.metadata)`: the braces-delimited dict rendering that
`insert_new_chunks` stores in the `metadata_json` column. -/
def pyRepr (m : List (String × PyVal)) : String :=
  "\x7b" ++ pyReprEntries m ++ "\x7d"

/-- A langchain `Document` as `insert_new_chunks` consumes it:
`page_content` plus a metadata dict. -/
structure Doc where
  page_content : String
  metadata : List (String × PyVal)
deriving DecidableEq

/-- One row of the `chat_history` table.  `seq` stands for the generated
primary key and records the insertion (creation) order of the row. -/
structure ChatRow where
  seq : Nat
  user_id : String
  message : String
  emb : List ℚ
  timestamp : ℚ
deriving DecidableEq

/-- One row of the `pdf_embeddings` table.  The four attribute columns hold
whatever Python value `chunk.metadata.get` produced, hence `PyVal`. -/
structure PdfRow where
  seq : Nat
  user_id : PyVal
  filename : PyVal
  source : PyVal
  is_public : PyVal
  chunk_text : String
  emb : List ℚ
  metadata_json : String
deriving DecidableEq

/-- The persistent state: both tables in insertion order plus the next
insertion sequence number of each table. -/
structure Store where
  chat : List ChatRow
  pdf : List PdfRow
  nextChatSeq : Nat
  nextPdfSeq : Nat
deriving DecidableEq

/-- The empty database. -/
def store0 : Store := ⟨[], [], 0, 0⟩

/-- A SQLAlchemy session: the base state plus staged (uncommitted) changes. -/
structure Session where
  base : Store
  chatDel : List ChatRow
  chatAdd : List ChatRow
  pdfAdd : List PdfRow
deriving DecidableEq

/-- `SessionLocal()`: a fresh session over the current store. -/
def Session.start (s : Store) : Session := ⟨s, [], [], []⟩

/-- `session.rollback()` (and `session.close()` without commit): staged
changes are discarded, the store is unchanged. -/
def Session.rollback (sess : Session) : Store := sess.base

/-- `session.commit()`: apply the staged deletes and inserts atomically. -/
def Session.commit (sess : Session) : Store :=
  { chat := sess.base.chat.filter (fun r => decide (r ∉ sess.chatDel)) ++ sess.chatAdd
    pdf := sess.base.pdf ++ sess.pdfAdd
    nextChatSeq := sess.base.nextChatSeq + sess.chatAdd.length
    nextPdfSeq := sess.base.nextPdfSeq + sess.pdfAdd.length }

/-- `CHAT_HISTORY_LIMIT = 10`. -/
def CHAT_HISTORY_LIMIT : Nat := 10

/-- The rows of `chat_history` belonging to one user, in creation order
(`session.query(ChatHistory).filter_by(user_id=user_id)`). -/
def userChat (s : Store) (u : String) : List ChatRow :=
  s.chat.filter (fun r => r.user_id == u)

/-- `count - CHAT_HISTORY_LIMIT + 1`: how many rows the eviction query of
`save_user_message` asks for when `count >= CHAT_HISTORY_LIMIT`. -/
def evictionCount (s : Store) (u : String) : Nat :=
  (userChat s u).length - CHAT_HISTORY_LIMIT + 1

/-- The possible results of the eviction query
`ORDER BY timestamp LIMIT (count - CHAT_HISTORY_LIMIT + 1)`: a selection of
the required number of rows of the user such that every selected row has a
timestamp at most that of every unselected row.  SQL does not specify
which rows are selected when timestamps tie. -/
def validEviction (s : Store) (u : String) (D : List ChatRow) : Prop :=
  D.Sublist (userChat s u) ∧ D.length = evictionCount s u ∧
    ∀ d ∈ D, ∀ r ∈ userChat s u, r ∉ D → d.timestamp ≤ r.timestamp

instance (s : Store) (u : String) (D : List ChatRow) : Decidable (validEviction s u D) := by
  unfold validEviction
  exact inferInstance

/-- The eviction choice `D` is consistent with the code: it must be a valid
answer of the eviction query whenever that query runs (`count >= limit`). -/
def okEvict (s : Store) (u : String) (D : List ChatRow) : Prop :=
  CHAT_HISTORY_LIMIT ≤ (userChat s u).length → validEviction s u D

instance (s : Store) (u : String) (D : List ChatRow) : Decidable (okEvict s u D) := by
  unfold okEvict
  exact inferInstance

/-- `save_user_message(user_id, message)`.  The code counts the rows of the user,
stages the deletion of the oldest `count - limit + 1` rows when the count has
reached `CHAT_HISTORY_LIMIT`, then calls `embedding.embed_query(message)`
(`embRes`; `none` means the call raised), appends the new row and commits; on
an exception it rolls the session back and re-raises (`false`). -/
def save_user_message (s : Store) (u msg : String) (embRes : Option (List ℚ))
    (ts : ℚ) (D : List ChatRow) : Store × Bool :=
  let count := (userChat s u).length
  let Dg := if CHAT_HISTORY_LIMIT ≤ count then D else []
  let sess : Session := { Session.start s with chatDel := Dg }
  match embRes with
  | none => (sess.rollback, false)
  | some emb =>
      let sess := { sess with chatAdd := [⟨s.nextChatSeq, u, msg, emb, ts⟩] }
      (sess.commit, true)

/-- One call to `save_user_message`, with its externally supplied embedding
result and clock value. -/
structure Call where
  user : String
  msg : String
  embRes : Option (List ℚ)
  ts : ℚ

/-- The chat rows a sequence of calls creates, numbered from `n`: one row per
call whose embedding call succeeded. -/
def createdRows : Nat → List Call → List ChatRow
  | _, [] => []
  | n, c :: cs =>
    match c.embRes with
    | none => createdRows n cs
    | some e => ⟨n, c.user, c.msg, e, c.ts⟩ :: createdRows (n + 1) cs

/-- Executions of a sequence of `save_user_message` calls: at each step the
eviction query may return any `validEviction` choice. -/
inductive SaveSeq : Store → List Call → Store → Prop where
  | nil (s : Store) : SaveSeq s [] s
  | cons {s s' : Store} {c : Call} {cs : List Call} (D : List ChatRow)
      (hD : okEvict s c.user D)
      (htail : SaveSeq (save_user_message s c.user c.msg c.embRes c.ts D).1 cs s') :
      SaveSeq s (c :: cs) s'

/-- The possible results of a SQL query `ORDER BY d LIMIT k` over `rows`:
some permutation of `rows` that is sorted by `d`, truncated to `k` elements.
The relative order of rows with equal `d` is not specified. -/
def validNearest {α : Type} (d : α → ℚ) (rows : List α) (k : Nat) (res : List α) : Prop :=
  ∃ ordered : List α, rows.Perm ordered ∧
    ordered.Pairwise (fun a b => d a ≤ d b) ∧ res = ordered.take k

/-- A `Document` as `retrieve_user_memory` returns it: the message text with
`user_id` and `timestamp` metadata. -/
structure ChatDoc where
  page_content : String
  user_id : String
  timestamp : ℚ
deriving DecidableEq

/-- The list comprehension of `retrieve_user_memory`: keep only rows with
truthy (non-empty) `message`, then wrap each as a `Document`. -/
def chatDocs (raw : List ChatRow) : List ChatDoc :=
  (raw.filter (fun r => !(r.message == ""))).map
    (fun r => ⟨r.message, r.user_id, r.timestamp⟩)

/-- `retrieve_user_memory(user_id, query, k)`.  `qres` is the outcome of the
embed-and-query step inside the `try` block: `Except.ok raw` carries the rows
the similarity query returned, `Except.error` means some step raised, in
which case the code prints the error and returns `[]`. -/
def retrieve_user_memory (s : Store) (u : String)
    (qres : Except Unit (List ChatRow)) : List ChatDoc :=
  match qres with
  | Except.error _ => []
  | Except.ok raw => chatDocs raw

/-- The rows admitted by the SQL predicate of `retrieve_pdf_for_user`:
`user_id == user OR is_public == 1`. -/
def pdfVisible (s : Store) (u : String) : List PdfRow :=
  s.pdf.filter (fun r => r.user_id == PyVal.str u || r.is_public == PyVal.int 1)

/-- A `Document` as `retrieve_pdf_for_user` returns it. -/
structure PdfDoc where
  page_content : String
  user_id : PyVal
  filename : PyVal
  source : PyVal
  is_public : PyVal
deriving DecidableEq

/-- The list comprehension of `retrieve_pdf_for_user` (no filtering). -/
def pdfDocs (raw : List PdfRow) : List PdfDoc :=
  raw.map (fun r => ⟨r.chunk_text, r.user_id, r.filename, r.source, r.is_public⟩)

/-- `retrieve_pdf_for_user(user_id, query, k)`; `qres` as in
`retrieve_user_memory`: on any exception the code returns `[]`. -/
def retrieve_pdf_for_user (s : Store) (u : String)
    (qres : Except Unit (List PdfRow)) : List PdfDoc :=
  match qres with
  | Except.error _ => []
  | Except.ok raw => pdfDocs raw

/-- The `PDFEmbedding(...)` constructor call inside `insert_new_chunks`:
every column is read off the metadata of the chunk itself with the defaults,
and `metadata_json` stores `str(chunk.metadata)`. -/
def buildPdfRow (n : Nat) (ch : Doc) (e : List ℚ) : PdfRow :=
  { seq := n
    user_id := metaGet ch.metadata "user_id" (PyVal.str "")
    filename := metaGet ch.metadata "filename" (PyVal.str "")
    source := metaGet ch.metadata "source" (PyVal.str "")
    is_public := metaGet ch.metadata "is_public" (PyVal.int 0)
    chunk_text := ch.page_content
    emb := e
    metadata_json := pyRepr ch.metadata }

/-- The insertion loop `for chunk, emb in zip(chunks, embeddings_list)`. -/
def buildPdfRows (n : Nat) : List (Doc × List ℚ) → List PdfRow
  | [] => []
  | (ch, e) :: rest => buildPdfRow n ch e :: buildPdfRows (n + 1) rest

/-- `insert_new_chunks(chunks)`.  `embRes` is the result of the single batch
call `embedding.embed_documents(texts)` (`none` = it raised).  On failure the
session is rolled back and the function returns `False`; on success all rows
are staged and committed together. -/
def insert_new_chunks (s : Store) (chunks : List Doc)
    (embRes : Option (List (List ℚ))) : Store × Bool :=
  let sess := Session.start s
  match embRes with
  | none => (sess.rollback, false)
  | some embs =>
      let rows := buildPdfRows s.nextPdfSeq (chunks.zip embs)
      (Session.commit { sess with pdfAdd := rows }, true)

/-- `clear_history_by_user(user_id)`: delete the chat rows of the user; nothing
else is touched. -/
def clear_history_by_user (s : Store) (u : String) : Store :=
  { s with chat := s.chat.filter (fun r => !(r.user_id == u)) }

/-- The last `n` elements of a list (used to state which turns survive
eviction). -/
def lastN (n : Nat) (l : List α) : List α := l.drop (l.length - n)

/-! ### Basic lemmas about `lastN` and the operations -/

theorem lastN_of_length_le {l : List α} {n : Nat} (h : l.length ≤ n) : lastN n l = l := by
  unfold lastN
  rw [Nat.sub_eq_zero_of_le h, List.drop_zero]

theorem lastN_length (n : Nat) (l : List α) : (lastN n l).length = min n l.length := by
  unfold lastN
  rw [List.length_drop]
  omega

theorem lastN_length_le (n : Nat) (l : List α) : (lastN n l).length ≤ n := by
  rw [lastN_length]
  omega

theorem lastN_sublist (n : Nat) (l : List α) : (lastN n l).Sublist l :=
  List.drop_sublist _ _

theorem lastN_append_lastN (n : Nat) (A B : List α) :
    lastN n (lastN n A ++ B) = lastN n (A ++ B) := by
  rcases le_or_lt A.length n with h | h
  · rw [lastN_of_length_le h]
  · unfold lastN
    have e1 : (A.drop (A.length - n)).length = n := by
      rw [List.length_drop]
      omega
    rw [List.length_append, List.length_append, e1,
      List.drop_append_eq_append_drop, List.drop_append_eq_append_drop,
      List.drop_drop, e1]
    have e2 : A.length - n + (n + B.length - n) = A.length + B.length - n := by omega
    have e3 : n + B.length - n - n = A.length + B.length - n - A.length := by omega
    rw [e2, e3]

theorem save_fail (s : Store) (u msg : String) (ts : ℚ) (D : List ChatRow) :
    save_user_message s u msg none ts D = (s, false) := rfl

theorem ingest_fail (s : Store) (chunks : List Doc) :
    insert_new_chunks s chunks none = (s, false) := rfl

/-! ### C3, C7: failed embedding calls leave the store untouched -/

/-- Claim C3: if the batch embedding step of `insert_new_chunks` fails, the
session is rolled back, the function returns `False`, and the store equals
the state before the call: zero fragments of the batch are inserted. -/
theorem c3_atomic_ingest (s : Store) (chunks : List Doc) :
    insert_new_chunks s chunks none = (s, false) ∧
    (insert_new_chunks s chunks none).1.pdf = s.pdf :=
  ⟨rfl, rfl⟩

/-- Claim C7: if the embedding call inside `save_user_message` fails, the
whole operation rolls back with no effect: the staged eviction is not
committed and the store (in particular the history of the user) is unchanged. -/
theorem c7_record_turn_atomic (s : Store) (u msg : String) (ts : ℚ) (D : List ChatRow) :
    save_user_message s u msg none ts D = (s, false) ∧
    (∀ v : String, userChat (save_user_message s u msg none ts D).1 v = userChat s v) :=
  ⟨rfl, fun _ => rfl⟩

/-! ### C4: read failures are masked as empty results -/

/-- Claim C4 (amended): when the embed-or-query step of a read fails, both
`retrieve_user_memory` and `retrieve_pdf_for_user` catch the exception and
return the empty list; no `StoreUnavailable`-style error reaches the caller,
so failure is indistinguishable from "no records match". -/
theorem c4_amended (s : Store) (u : String) (e e' : Unit) :
    retrieve_user_memory s u (Except.error e) = [] ∧
    retrieve_pdf_for_user s u (Except.error e') = [] :=
  ⟨rfl, rfl⟩

/-- A store holding one chat row and one pdf row for user `u`. -/
def c4s : Store :=
  ⟨[⟨0, "u", "hello", [1], 1⟩],
   [⟨0, PyVal.str "u", PyVal.str "f", PyVal.str "src", PyVal.int 0, "text", [1], "m"⟩],
   1, 1⟩

/-- Claim C4 is false on the code: with a matching record present, a failing
read still returns `[]` (the `except` branches return an empty list), so an
empty result does not imply that no records match, and no error is surfaced. -/
theorem c4_counterexample :
    retrieve_user_memory c4s "u" (Except.error ()) = [] ∧
    (userChat c4s "u").length = 1 ∧
    retrieve_pdf_for_user c4s "u" (Except.error ()) = [] ∧
    (pdfVisible c4s "u").length = 1 := by
  refine ⟨rfl, by decide, rfl, by decide⟩

/-! ### C10: clear_history_by_user deletes the turns of exactly one user -/

/-- Claim C10: `clear_history_by_user u` empties the chat history of `u`,
leaves the chat rows of every other user unchanged, and leaves the pdf table
unchanged. -/
theorem c10_clear_frame (s : Store) (u : String) :
    userChat (clear_history_by_user s u) u = [] ∧
    (∀ v : String, v ≠ u → userChat (clear_history_by_user s u) v = userChat s v) ∧
    (clear_history_by_user s u).pdf = s.pdf := by
  refine ⟨?_, ?_, rfl⟩
  · rw [userChat, clear_history_by_user, List.filter_filter, List.filter_eq_nil_iff]
    intro a _
    cases h : a.user_id == u <;> simp [h]
  · intro v hv
    rw [userChat, clear_history_by_user, List.filter_filter, userChat]
    apply List.filter_congr
    intro x _
    cases h : x.user_id == v
    · simp [h]
    · have : x.user_id = v := by
        have := eq_of_beq h
        exact this
      simp [h, this, hv]

/-- Witness for C10 at a concrete store and pair of users. -/
def c10s : Store :=
  ⟨[⟨0, "a", "m1", [], 1⟩, ⟨1, "b", "m2", [], 2⟩, ⟨2, "a", "m3", [], 3⟩],
   [⟨0, PyVal.str "a", PyVal.str "f", PyVal.str "s", PyVal.int 0, "t", [], "m"⟩],
   3, 1⟩

theorem c10_clear_frame_witness :
    userChat (clear_history_by_user c10s "a") "a" = [] ∧
    userChat (clear_history_by_user c10s "a") "b" = userChat c10s "b" ∧
    (clear_history_by_user c10s "a").pdf = c10s.pdf :=
  ⟨(c10_clear_frame c10s "a").1,
   (c10_clear_frame c10s "a").2.1 "b" (by decide),
   (c10_clear_frame c10s "a").2.2⟩

/-! ### C1: visibility enforcement of retrieve_pdf_for_user -/

/-- Claim C1: whatever valid result the similarity query returns, every
fragment `retrieve_pdf_for_user u` hands back is owned by `u` or was ingested
as public (`is_public == 1`); a private fragment of another user is never
returned. -/
theorem c1_visibility (s : Store) (u : String) (d : List ℚ → ℚ) (k : Nat)
    (raw : List PdfRow)
    (hraw : validNearest (fun r => d r.emb) (pdfVisible s u) k raw) :
    ∀ doc ∈ retrieve_pdf_for_user s u (Except.ok raw),
      doc.user_id = PyVal.str u ∨ doc.is_public = PyVal.int 1 := by
  intro doc hdoc
  obtain ⟨ordered, hperm, _, rfl⟩ := hraw
  rw [retrieve_pdf_for_user, pdfDocs] at hdoc
  simp only [List.mem_map] at hdoc
  obtain ⟨r, hr, rfl⟩ := hdoc
  have hr2 : r ∈ pdfVisible s u :=
    hperm.mem_iff.mpr ((List.take_sublist _ _).subset hr)
  have hpred := (List.mem_filter.mp hr2).2
  rcases Bool.or_eq_true_iff.mp hpred with h | h
  · exact Or.inl (eq_of_beq h)
  · exact Or.inr (eq_of_beq h)

/-- A store with a private fragment of `A`, a public fragment of `B` and a
private fragment of `B`. -/
def c1p1 : PdfRow := ⟨0, PyVal.str "A", PyVal.str "f1", PyVal.str "s1", PyVal.int 0, "tA", [1], "m1"⟩
def c1p2 : PdfRow := ⟨1, PyVal.str "B", PyVal.str "f2", PyVal.str "s2", PyVal.int 1, "tB", [1], "m2"⟩
def c1p3 : PdfRow := ⟨2, PyVal.str "B", PyVal.str "f3", PyVal.str "s3", PyVal.int 0, "tC", [1], "m3"⟩
def c1s : Store := ⟨[], [c1p1, c1p2, c1p3], 0, 3⟩

theorem c1_visibility_witness :
    (⟨"tA", PyVal.str "A", PyVal.str "f1", PyVal.str "s1", PyVal.int 0⟩ : PdfDoc).user_id
        = PyVal.str "A" ∨
    (⟨"tA", PyVal.str "A", PyVal.str "f1", PyVal.str "s1", PyVal.int 0⟩ : PdfDoc).is_public
        = PyVal.int 1 :=
  c1_visibility c1s "A" (fun _ => 0) 2 [c1p1, c1p2]
    ⟨[c1p1, c1p2], by decide, by decide, rfl⟩
    ⟨"tA", PyVal.str "A", PyVal.str "f1", PyVal.str "s1", PyVal.int 0⟩ (by decide)

/-! ### C5: ranking is sorted by distance, but tie order is unspecified -/

theorem validNearest_sorted {α : Type} (d : α → ℚ) (rows : List α) (k : Nat)
    (res : List α) (h : validNearest d rows k res) :
    res.Pairwise (fun a b => d a ≤ d b) := by
  obtain ⟨ordered, _, hsort, rfl⟩ := h
  exact hsort.sublist (List.take_sublist _ _)

/-- Claim C5 (amended): every result the nearest-neighbour queries may return
(for chat turns and for pdf fragments) is ordered by ascending distance to
the query vector; the relative order of records at identical distance is not
specified by the code, hence not deterministic (see `c5_counterexample`). -/
theorem c5_ranking_amended (s : Store) (u : String) (d : List ℚ → ℚ) (k : Nat)
    (raw : List ChatRow) (rawp : List PdfRow)
    (h1 : validNearest (fun r => d r.emb) (userChat s u) k raw)
    (h2 : validNearest (fun r => d r.emb) (pdfVisible s u) k rawp) :
    raw.Pairwise (fun a b => d a.emb ≤ d b.emb) ∧
    rawp.Pairwise (fun a b => d a.emb ≤ d b.emb) :=
  ⟨validNearest_sorted _ _ _ _ h1, validNearest_sorted _ _ _ _ h2⟩

/-- Two turns of the same user with identical embedding vectors (hence
identical cosine distance to every query), created in order `c5r1`, `c5r2`. -/
def c5r1 : ChatRow := ⟨0, "u", "first", [1], 1⟩
def c5r2 : ChatRow := ⟨1, "u", "second", [1], 2⟩
def c5s : Store := ⟨[c5r1, c5r2], [], 2, 0⟩

/-- Claim C5 is false on the code: with two records at identical distance,
both orders are valid results of the `ORDER BY cosine_distance LIMIT k` query
(no secondary sort key is requested), so the record with earlier creation
order need not rank first and repeated identical queries need not agree. -/
theorem c5_counterexample :
    validNearest (fun r => (fun _ => (0 : ℚ)) r.emb) (userChat c5s "u") 2 [c5r2, c5r1] ∧
    validNearest (fun r => (fun _ => (0 : ℚ)) r.emb) (userChat c5s "u") 2 [c5r1, c5r2] ∧
    (fun _ => (0 : ℚ)) c5r1.emb = (fun _ => (0 : ℚ)) c5r2.emb ∧
    c5r1.seq < c5r2.seq := by
  refine ⟨⟨[c5r2, c5r1], ?_, by decide, rfl⟩, ⟨[c5r1, c5r2], ?_, by decide, rfl⟩, rfl, by decide⟩
  · have h : userChat c5s "u" = [c5r1, c5r2] := by decide
    rw [h]
    exact List.Perm.swap _ _ _
  · exact List.Perm.refl _

theorem c5_ranking_amended_witness :
    [c5r2, c5r1].Pairwise (fun a b => (fun _ => (0 : ℚ)) a.emb ≤ (fun _ => (0 : ℚ)) b.emb) ∧
    ([] : List PdfRow).Pairwise (fun a b => (fun _ => (0 : ℚ)) a.emb ≤ (fun _ => (0 : ℚ)) b.emb) :=
  c5_ranking_amended c5s "u" (fun _ => 0) 2 [c5r2, c5r1] []
    ⟨[c5r2, c5r1],
      by
        have h : userChat c5s "u" = [c5r1, c5r2] := by decide
        rw [h]
        exact List.Perm.swap _ _ _,
      by decide, rfl⟩
    ⟨[], by decide, by decide, rfl⟩

/-! ### C9: recall silently filters empty-text turns -/

/-- Three stored turns of `u`, the middle one with empty text. -/
def c9r1 : ChatRow := ⟨0, "u", "hello", [1], 1⟩
def c9r2 : ChatRow := ⟨1, "u", "", [1], 2⟩
def c9r3 : ChatRow := ⟨2, "u", "world", [1], 3⟩
def c9s : Store := ⟨[c9r1, c9r2, c9r3], [], 3, 0⟩

/-- Claim C9: the list comprehension of `retrieve_user_memory` keeps only
rows with truthy (non-empty) text, so a stored empty-text turn is never
returned even though it is stored, matches the user predicate and counts
toward the capacity bound; consequently the function can return fewer than
`k` documents although `k` rows match, as the concrete instance shows. -/
theorem c9_empty_filter (s : Store) (u : String) (raw : List ChatRow) :
    (∀ doc ∈ retrieve_user_memory s u (Except.ok raw), doc.page_content ≠ "") ∧
    (validNearest (fun r => (fun _ => (0 : ℚ)) r.emb) (userChat c9s "u") 3 [c9r1, c9r2, c9r3] ∧
     (userChat c9s "u").length = 3 ∧
     (retrieve_user_memory c9s "u" (Except.ok [c9r1, c9r2, c9r3])).length = 2) := by
  refine ⟨?_, ⟨[c9r1, c9r2, c9r3], List.Perm.refl _, by decide, rfl⟩, by decide, by decide⟩
  intro doc hdoc
  rw [retrieve_user_memory, chatDocs] at hdoc
  simp only [List.mem_map, List.mem_filter] at hdoc
  obtain ⟨r, ⟨_, hr⟩, rfl⟩ := hdoc
  simpa using hr

theorem c9_empty_filter_witness :
    (⟨"hello", "u", 1⟩ : ChatDoc).page_content ≠ "" ∧
    validNearest (fun r => (fun _ => (0 : ℚ)) r.emb) (userChat c9s "u") 3 [c9r1, c9r2, c9r3] ∧
    (userChat c9s "u").length = 3 ∧
    (retrieve_user_memory c9s "u" (Except.ok [c9r1, c9r2, c9r3])).length = 2 :=
  ⟨(c9_empty_filter c9s "u" [c9r1, c9r2, c9r3]).1 ⟨"hello", "u", 1⟩ (by decide),
   (c9_empty_filter c9s "u" [c9r1, c9r2, c9r3]).2⟩

/-! ### C6: eviction order and its tie behaviour -/

/-- A chat row of user `u` with the given seq, text and timestamp. -/
def c6r (n : Nat) (m : String) (t : ℚ) : ChatRow := ⟨n, "u", m, [], t⟩

/-- Ten stored turns of `u`; the two oldest share the timestamp `0`. -/
def c6s : Store :=
  ⟨[c6r 0 "a" 0, c6r 1 "b" 0, c6r 2 "c" 2, c6r 3 "d" 3, c6r 4 "e" 4,
    c6r 5 "f" 5, c6r 6 "g" 6, c6r 7 "h" 7, c6r 8 "i" 8, c6r 9 "j" 9], [], 10, 0⟩

/-- Claim C6 is false on the code: at capacity, with the two oldest turns
sharing a timestamp, the eviction query (`ORDER BY timestamp LIMIT 1`, no
secondary key) may legitimately delete either one — including the turn with
the *later* insertion sequence — and the two choices commit observably
different stores.  The eviction choice is therefore not determined by
insertion sequence and not deterministic. -/
theorem c6_counterexample :
    validEviction c6s "u" [c6r 0 "a" 0] ∧
    validEviction c6s "u" [c6r 1 "b" 0] ∧
    (c6r 0 "a" 0).seq < (c6r 1 "b" 0).seq ∧
    (c6r 0 "a" 0).message ≠ (c6r 1 "b" 0).message ∧
    (save_user_message c6s "u" "k" (some []) 10 [c6r 0 "a" 0]).1 ≠
      (save_user_message c6s "u" "k" (some []) 10 [c6r 1 "b" 0]).1 := by
  decide

theorem sublist_eq_of_mem_iff {α : Type} {l D D' : List α}
    (hl : l.Nodup) (h1 : D.Sublist l) (h2 : D'.Sublist l)
    (hmem : ∀ x, x ∈ D ↔ x ∈ D') : D = D' := by
  induction l generalizing D D' with
  | nil => rw [List.sublist_nil.mp h1, List.sublist_nil.mp h2]
  | cons a t ih =>
    have hat : a ∉ t := (List.nodup_cons.mp hl).1
    have ht : t.Nodup := (List.nodup_cons.mp hl).2
    cases h1 with
    | cons _ h1' =>
      cases h2 with
      | cons _ h2' => exact ih ht h1' h2' hmem
      | cons₂ _ h2' =>
        exact absurd (h1'.subset ((hmem a).mpr (List.mem_cons_self a _))) hat
    | cons₂ _ h1' =>
      cases h2 with
      | cons _ h2' =>
        exact absurd (h2'.subset ((hmem a).mp (List.mem_cons_self a _))) hat
      | cons₂ _ h2' =>
        congr 1
        refine ih ht h1' h2' ?_
        intro x
        constructor
        · intro hx
          have hxa : x ≠ a := fun he => hat (he ▸ h1'.subset hx)
          rcases List.mem_cons.mp ((hmem x).mp (List.mem_cons_of_mem a hx)) with he | h
          · exact absurd he hxa
          · exact h
        · intro hx
          have hxa : x ≠ a := fun he => hat (he ▸ h2'.subset hx)
          rcases List.mem_cons.mp ((hmem x).mpr (List.mem_cons_of_mem a hx)) with he | h
          · exact absurd he hxa
          · exact h

/-- Claim C6 (amended): evicted turns are the oldest by timestamp (that is
`validEviction`); and whenever the stored timestamps of the user are pairwise
distinct the eviction query has exactly one valid answer, so the choice is
deterministic.  Among turns with identical timestamps the choice is
unspecified (it is in particular not fixed by insertion sequence, and never
depends on text content: `validEviction` never inspects `message`). -/
theorem c6_eviction_amended (s : Store) (u : String) (D D' : List ChatRow)
    (hdist : (userChat s u).Pairwise (fun a b => a.timestamp ≠ b.timestamp))
    (hD : validEviction s u D) (hD' : validEviction s u D') : D = D' := by
  obtain ⟨hsub, hlen, hmin⟩ := hD
  obtain ⟨hsub', hlen', hmin'⟩ := hD'
  have hnd : (userChat s u).Nodup :=
    hdist.imp (fun hts hab => hts (congrArg ChatRow.timestamp hab))
  have key : ∀ (E E' : List ChatRow), E.Sublist (userChat s u) →
      E'.Sublist (userChat s u) →
      E.length = evictionCount s u → E'.length = evictionCount s u →
      (∀ d ∈ E, ∀ r ∈ userChat s u, r ∉ E → d.timestamp ≤ r.timestamp) →
      (∀ d ∈ E', ∀ r ∈ userChat s u, r ∉ E' → d.timestamp ≤ r.timestamp) →
      ∀ x ∈ E, x ∈ E' := by
    intro E E' hs hs' hl hl' hm hm' x hx
    by_contra hxn
    have hnotsub : ¬ ∀ y ∈ E', y ∈ E := by
      intro hss
      have hndE : E.Nodup := hs.nodup hnd
      have hndE' : E'.Nodup := hs'.nodup hnd
      have hfin : E'.toFinset ⊆ E.toFinset := by
        intro y hy
        rw [List.mem_toFinset] at hy ⊢
        exact hss y hy
      have hcard : E.toFinset.card ≤ E'.toFinset.card := by
        rw [List.toFinset_card_of_nodup hndE, List.toFinset_card_of_nodup hndE', hl, hl']
      have heq := Finset.eq_of_subset_of_card_le hfin hcard
      exact hxn (List.mem_toFinset.mp (heq ▸ List.mem_toFinset.mpr hx))
    push_neg at hnotsub
    obtain ⟨y, hyE', hynE⟩ := hnotsub
    have h1 : x.timestamp ≤ y.timestamp := hm x hx y (hs'.subset hyE') hynE
    have h2 : y.timestamp ≤ x.timestamp := hm' y hyE' x (hs.subset hx) hxn
    have hxy : x ≠ y := fun he => hynE (he ▸ hx)
    have hne : x.timestamp ≠ y.timestamp :=
      hdist.forall (fun _ _ h => Ne.symm h) (hs.subset hx) (hs'.subset hyE') hxy
    exact hne (le_antisymm h1 h2)
  refine sublist_eq_of_mem_iff hnd hsub hsub' ?_
  intro x
  exact ⟨fun hx => key D D' hsub hsub' hlen hlen' hmin hmin' x hx,
         fun hx => key D' D hsub' hsub hlen' hlen hmin' hmin x hx⟩

/-- Ten stored turns of `u` with pairwise distinct timestamps. -/
def c6ws : Store :=
  ⟨[c6r 0 "a" 0, c6r 1 "b" 1, c6r 2 "c" 2, c6r 3 "d" 3, c6r 4 "e" 4,
    c6r 5 "f" 5, c6r 6 "g" 6, c6r 7 "h" 7, c6r 8 "i" 8, c6r 9 "j" 9], [], 10, 0⟩

theorem c6_eviction_amended_witness : [c6r 0 "a" 0] = [c6r 0 "a" 0] :=
  c6_eviction_amended c6ws "u" [c6r 0 "a" 0] [c6r 0 "a" 0]
    (by decide) (by decide) (by decide)

/-! ### C2: the bounded-history invariant -/

theorem save_success_chat (s : Store) (u msg : String) (emb : List ℚ) (ts : ℚ)
    (D : List ChatRow) :
    (save_user_message s u msg (some emb) ts D).1.chat
      = s.chat.filter (fun r => decide (r ∉
          (if CHAT_HISTORY_LIMIT ≤ (userChat s u).length then D else [])))
        ++ [⟨s.nextChatSeq, u, msg, emb, ts⟩] := rfl

theorem save_success_nextChatSeq (s : Store) (u msg : String) (emb : List ℚ) (ts : ℚ)
    (D : List ChatRow) :
    (save_user_message s u msg (some emb) ts D).1.nextChatSeq = s.nextChatSeq + 1 := rfl

theorem validEviction_eq_head (s : Store) (u : String) (h0 : ChatRow) (t : List ChatRow)
    (hut : userChat s u = h0 :: t)
    (hlen : (userChat s u).length = CHAT_HISTORY_LIMIT)
    (hsort : (userChat s u).Pairwise (fun a b => a.timestamp < b.timestamp))
    (D : List ChatRow) (hD : validEviction s u D) : D = [h0] := by
  obtain ⟨hsub, hDlen, hmin⟩ := hD
  have h1 : D.length = 1 := by
    rw [hDlen, evictionCount, hlen]
    simp [CHAT_HISTORY_LIMIT]
  obtain ⟨d, rfl⟩ := List.length_eq_one.mp h1
  have hdmem : d ∈ userChat s u := hsub.subset (List.mem_singleton_self d)
  rw [hut] at hdmem
  rcases List.mem_cons.mp hdmem with h | h
  · rw [h]
  · exfalso
    have hlt : h0.timestamp < d.timestamp := by
      rw [hut] at hsort
      exact List.rel_of_pairwise_cons hsort h
    have hne : h0 ≠ d := by
      intro he
      rw [he] at hlt
      exact lt_irrefl _ hlt
    have hle : d.timestamp ≤ h0.timestamp := by
      apply hmin d (List.mem_singleton_self d) h0
      · rw [hut]
        exact List.mem_cons_self _ _
      · rw [List.mem_singleton]
        exact hne
    exact absurd hlt (not_lt.mpr hle)

theorem save_userChat_self (s : Store) (u msg : String) (emb : List ℚ) (ts : ℚ)
    (D : List ChatRow)
    (hok : okEvict s u D)
    (hsort : (userChat s u).Pairwise (fun a b => a.timestamp < b.timestamp))
    (hbound : (userChat s u).length ≤ CHAT_HISTORY_LIMIT) :
    userChat (save_user_message s u msg (some emb) ts D).1 u
      = lastN CHAT_HISTORY_LIMIT (userChat s u ++ [⟨s.nextChatSeq, u, msg, emb, ts⟩]) := by
  by_cases hc : CHAT_HISTORY_LIMIT ≤ (userChat s u).length
  · -- at capacity: the eviction query returned exactly the unique oldest row
    have hlen : (userChat s u).length = CHAT_HISTORY_LIMIT := le_antisymm hbound hc
    obtain ⟨h0, t, hut⟩ : ∃ h0 t, userChat s u = h0 :: t := by
      cases hu : userChat s u with
      | nil =>
        rw [hu] at hlen
        simp [CHAT_HISTORY_LIMIT] at hlen
      | cons a l => exact ⟨a, l, rfl⟩
    have hDeq : D = [h0] := validEviction_eq_head s u h0 t hut hlen hsort D (hok hc)
    rw [userChat, save_success_chat, if_pos hc, hDeq, List.filter_append]
    have hsingle : List.filter (fun r => r.user_id == u)
        [(⟨s.nextChatSeq, u, msg, emb, ts⟩ : ChatRow)]
        = [⟨s.nextChatSeq, u, msg, emb, ts⟩] := by simp
    rw [hsingle]
    have hcomm : List.filter (fun r => r.user_id == u)
          (s.chat.filter (fun r => decide (r ∉ [h0])))
        = List.filter (fun r => decide (r ∉ [h0])) (userChat s u) := by
      rw [userChat, List.filter_comm]
    have htail : List.filter (fun r => decide (r ∉ [h0])) (userChat s u) = t := by
      rw [hut]
      rw [List.filter_cons_of_neg (by simp)]
      apply List.filter_eq_self.mpr
      intro x hx
      have hlt : h0.timestamp < x.timestamp := by
        rw [hut] at hsort
        exact List.rel_of_pairwise_cons hsort hx
      simp only [decide_eq_true_eq, List.mem_singleton]
      intro hmem
      rw [hmem] at hlt
      exact lt_irrefl _ hlt
    rw [hcomm, htail]
    have ht9 : t.length + 1 = CHAT_HISTORY_LIMIT := by
      rw [← hlen, hut, List.length_cons]
    unfold lastN
    have hd : ((h0 :: t) ++ [(⟨s.nextChatSeq, u, msg, emb, ts⟩ : ChatRow)]).length
        - CHAT_HISTORY_LIMIT = 1 := by
      rw [List.length_append, List.length_cons, List.length_singleton]
      omega
    rw [hut, hd, List.cons_append, List.drop_one, List.tail_cons]
  · -- below capacity: nothing evicted
    have h1 : (save_user_message s u msg (some emb) ts D).1.chat
        = s.chat ++ [⟨s.nextChatSeq, u, msg, emb, ts⟩] := by
      rw [save_success_chat, if_neg hc]
      congr 1
      apply List.filter_eq_self.mpr
      intro a _
      simp
    rw [userChat, h1, List.filter_append]
    have hsingle : List.filter (fun r => r.user_id == u)
        [(⟨s.nextChatSeq, u, msg, emb, ts⟩ : ChatRow)]
        = [⟨s.nextChatSeq, u, msg, emb, ts⟩] := by simp
    rw [hsingle]
    have hlen : (userChat s u ++ [(⟨s.nextChatSeq, u, msg, emb, ts⟩ : ChatRow)]).length
        ≤ CHAT_HISTORY_LIMIT := by
      rw [List.length_append, List.length_singleton]
      simp only [CHAT_HISTORY_LIMIT] at hc ⊢
      omega
    rw [lastN_of_length_le hlen]
    rfl

theorem save_userChat_other (s : Store) (u msg : String) (emb : List ℚ) (ts : ℚ)
    (D : List ChatRow) (hok : okEvict s u D) (v : String) (hv : v ≠ u) :
    userChat (save_user_message s u msg (some emb) ts D).1 v = userChat s v := by
  rw [userChat, save_success_chat, List.filter_append]
  have hsingle : List.filter (fun r => r.user_id == v)
      [(⟨s.nextChatSeq, u, msg, emb, ts⟩ : ChatRow)] = [] := by
    simp only [List.filter_cons, List.filter_nil]
    have : ((⟨s.nextChatSeq, u, msg, emb, ts⟩ : ChatRow).user_id == v) = false := by
      rw [beq_eq_false_iff_ne]
      exact Ne.symm hv
    rw [this]
    simp
  rw [hsingle, List.append_nil]
  by_cases hc : CHAT_HISTORY_LIMIT ≤ (userChat s u).length
  · rw [if_pos hc, List.filter_comm, userChat]
    apply List.filter_eq_self.mpr
    intro a ha
    have hav : a.user_id = v := eq_of_beq (List.mem_filter.mp ha).2
    simp only [decide_eq_true_eq]
    intro haD
    have hau : a ∈ userChat s u := ((hok hc).1).subset haD
    have : a.user_id = u := eq_of_beq (List.mem_filter.mp hau).2
    exact hv (by rw [← hav, this])
  · rw [if_neg hc]
    congr 1
    apply List.filter_eq_self.mpr
    intro a _
    simp

theorem createdRows_cons_some (n : Nat) (c : Call) (cs : List Call) (emb : List ℚ)
    (hE : c.embRes = some emb) :
    createdRows n (c :: cs) = ⟨n, c.user, c.msg, emb, c.ts⟩ :: createdRows (n + 1) cs := by
  rw [createdRows, hE]

theorem createdRows_cons_none (n : Nat) (c : Call) (cs : List Call)
    (hE : c.embRes = none) :
    createdRows n (c :: cs) = createdRows n cs := by
  rw [createdRows, hE]

theorem saveSeq_userChat : ∀ (calls : List Call) (s s' : Store), SaveSeq s calls s' →
    calls.Pairwise (fun a b => a.ts < b.ts) →
    (∀ r ∈ s.chat, ∀ c ∈ calls, r.timestamp < c.ts) →
    (∀ v, (userChat s v).Pairwise (fun a b => a.timestamp < b.timestamp)) →
    (∀ v, (userChat s v).length ≤ CHAT_HISTORY_LIMIT) →
    ∀ u, userChat s' u = lastN CHAT_HISTORY_LIMIT
      (userChat s u ++ (createdRows s.nextChatSeq calls).filter (fun r => r.user_id == u)) := by
  intro calls s s' hrun
  induction hrun with
  | nil s =>
    intro _ _ _ hbound u
    rw [createdRows, List.filter_nil, List.append_nil, lastN_of_length_le (hbound u)]
  | @cons s s'' c cs D hD htail ih =>
    intro hinc hfresh hsort hbound u
    have hinc' : cs.Pairwise (fun a b => a.ts < b.ts) := (List.pairwise_cons.mp hinc).2
    have hheadlt : ∀ c' ∈ cs, c.ts < c'.ts := (List.pairwise_cons.mp hinc).1
    rcases hE : c.embRes with _ | emb
    · -- the embedding call failed: rollback, nothing changes
      have hs1 : (save_user_message s c.user c.msg c.embRes c.ts D).1 = s := by
        rw [hE, save_fail]
      have ihu := ih hinc'
        (by
          rw [hs1]
          exact fun r hr c' hc' => hfresh r hr c' (List.mem_cons_of_mem c hc'))
        (by rw [hs1]; exact hsort)
        (by rw [hs1]; exact hbound)
        u
      rw [hs1] at ihu
      rw [ihu, createdRows_cons_none s.nextChatSeq c cs hE]
    · -- the embedding call succeeded: one row appended, possibly one evicted
      have h_self : userChat (save_user_message s c.user c.msg c.embRes c.ts D).1 c.user
          = lastN CHAT_HISTORY_LIMIT
              (userChat s c.user ++ [⟨s.nextChatSeq, c.user, c.msg, emb, c.ts⟩]) := by
        rw [hE]
        exact save_userChat_self s c.user c.msg emb c.ts D hD (hsort c.user) (hbound c.user)
      have h_other : ∀ v, v ≠ c.user →
          userChat (save_user_message s c.user c.msg c.embRes c.ts D).1 v = userChat s v := by
        intro v hv
        rw [hE]
        exact save_userChat_other s c.user c.msg emb c.ts D hD v hv
      have hchat1 : (save_user_message s c.user c.msg c.embRes c.ts D).1.chat
          = s.chat.filter (fun r => decide (r ∉
              (if CHAT_HISTORY_LIMIT ≤ (userChat s c.user).length then D else [])))
            ++ [⟨s.nextChatSeq, c.user, c.msg, emb, c.ts⟩] := by
        rw [hE, save_success_chat]
      have hfresh₁ : ∀ r ∈ (save_user_message s c.user c.msg c.embRes c.ts D).1.chat,
          ∀ c' ∈ cs, r.timestamp < c'.ts := by
        intro r hr c' hc'
        rw [hchat1] at hr
        rcases List.mem_append.mp hr with h | h
        · exact hfresh r (List.mem_filter.mp h).1 c' (List.mem_cons_of_mem c hc')
        · rw [List.mem_singleton] at h
          rw [h]
          exact hheadlt c' hc'
      have hsort₁ : ∀ v, (userChat (save_user_message s c.user c.msg c.embRes c.ts D).1 v).Pairwise
          (fun a b => a.timestamp < b.timestamp) := by
        intro v
        rcases eq_or_ne v c.user with hv | hv
        · rw [hv, h_self]
          apply List.Pairwise.sublist (lastN_sublist _ _)
          rw [List.pairwise_append]
          refine ⟨hsort c.user, by simp, ?_⟩
          intro a ha b hb
          rw [List.mem_singleton] at hb
          rw [hb]
          exact hfresh a (List.mem_filter.mp ha).1 c (List.mem_cons_self c cs)
        · rw [h_other v hv]
          exact hsort v
      have hbound₁ : ∀ v,
          (userChat (save_user_message s c.user c.msg c.embRes c.ts D).1 v).length
            ≤ CHAT_HISTORY_LIMIT := by
        intro v
        rcases eq_or_ne v c.user with hv | hv
        · rw [hv, h_self]
          exact lastN_length_le _ _
        · rw [h_other v hv]
          exact hbound v
      have hseq : (save_user_message s c.user c.msg c.embRes c.ts D).1.nextChatSeq
          = s.nextChatSeq + 1 := by
        rw [hE, save_success_nextChatSeq]
      have ihu := ih hinc' hfresh₁ hsort₁ hbound₁ u
      rw [hseq] at ihu
      rcases eq_or_ne u c.user with hu | hu
      · subst hu
        rw [ihu, h_self, lastN_append_lastN]
        congr 1
        rw [createdRows_cons_some s.nextChatSeq c cs emb hE,
          List.filter_cons_of_pos (by simp), List.append_assoc, List.singleton_append]
      · rw [ihu, h_other u hu]
        congr 2
        rw [createdRows_cons_some s.nextChatSeq c cs emb hE,
          List.filter_cons_of_neg (by
            simp only [beq_iff_eq]
            exact Ne.symm hu)]

/-- Claim C2: starting from the empty store, after any sequence of
`save_user_message` calls whose clock values strictly increase, the stored
turn count of every user is at most `CHAT_HISTORY_LIMIT` (= 10), and the retained
turns are exactly the most recent `CHAT_HISTORY_LIMIT` rows created for that
user, in creation order. -/
theorem c2_history_bound (calls : List Call) (s' : Store)
    (hrun : SaveSeq store0 calls s')
    (hinc : calls.Pairwise (fun a b => a.ts < b.ts)) (u : String) :
    (userChat s' u).length ≤ CHAT_HISTORY_LIMIT ∧
    userChat s' u = lastN CHAT_HISTORY_LIMIT
      ((createdRows 0 calls).filter (fun r => r.user_id == u)) := by
  have h := saveSeq_userChat calls store0 s' hrun hinc
    (fun r hr => absurd hr (List.not_mem_nil r))
    (fun v => List.Pairwise.nil)
    (fun v => Nat.zero_le _)
    u
  constructor
  · rw [h]
    exact lastN_length_le _ _
  · rw [h]
    rfl

/-- A single call used to witness C2. -/
def c2call : Call := ⟨"u", "hello", some [1], 1⟩

/-- The store after running that call from the empty store. -/
def c2s : Store := (save_user_message store0 "u" "hello" (some [1]) 1 []).1

theorem c2_history_bound_witness :
    (userChat c2s "u").length ≤ CHAT_HISTORY_LIMIT ∧
    userChat c2s "u" = lastN CHAT_HISTORY_LIMIT
      ((createdRows 0 [c2call]).filter (fun r => r.user_id == "u")) :=
  c2_history_bound [c2call] c2s
    (SaveSeq.cons [] (by decide) (SaveSeq.nil c2s))
    (by decide) "u"

/-! ### C8: ingestion preserves the supplied attributes and metadata -/

theorem buildPdfRows_length : ∀ (n : Nat) (ps : List (Doc × List ℚ)),
    (buildPdfRows n ps).length = ps.length := by
  intro n ps
  induction ps generalizing n with
  | nil => rfl
  | cons p rest ih =>
    cases p with
    | mk ch e =>
      rw [buildPdfRows, List.length_cons, List.length_cons, ih]

theorem buildPdfRows_mem : ∀ (n : Nat) (ps : List (Doc × List ℚ)) (r : PdfRow),
    r ∈ buildPdfRows n ps → ∃ m p, p ∈ ps ∧ r = buildPdfRow m p.1 p.2 := by
  intro n ps
  induction ps generalizing n with
  | nil =>
    intro r hr
    rw [buildPdfRows] at hr
    exact absurd hr (List.not_mem_nil r)
  | cons p rest ih =>
    intro r hr
    cases p with
    | mk ch e =>
      rw [buildPdfRows] at hr
      rcases List.mem_cons.mp hr with h | h
      · exact ⟨n, (ch, e), List.mem_cons_self _ _, h⟩
      · obtain ⟨m, q, hq, hrq⟩ := ih (n + 1) r h
        exact ⟨m, q, List.mem_cons_of_mem _ hq, hrq⟩

theorem buildPdfRows_map_meta : ∀ (n : Nat) (ps : List (Doc × List ℚ)),
    (buildPdfRows n ps).map (fun r => r.metadata_json)
      = ps.map (fun p => pyRepr p.1.metadata) := by
  intro n ps
  induction ps generalizing n with
  | nil => rfl
  | cons p rest ih =>
    cases p with
    | mk ch e =>
      rw [buildPdfRows, List.map_cons, List.map_cons, ih]
      rfl

theorem buildPdfRows_map_text : ∀ (n : Nat) (ps : List (Doc × List ℚ)),
    (buildPdfRows n ps).map (fun r => r.chunk_text)
      = ps.map (fun p => p.1.page_content) := by
  intro n ps
  induction ps generalizing n with
  | nil => rfl
  | cons p rest ih =>
    cases p with
    | mk ch e =>
      rw [buildPdfRows, List.map_cons, List.map_cons, ih]
      rfl

/-- Claim C8: when the batch embedding call succeeds (one vector per chunk),
`insert_new_chunks` appends exactly one row per chunk; if every chunk of the
batch carries the same `user_id`, `source` and `is_public` metadata values —
the attributes supplied for the batch — then every inserted fragment carries
those same attributes, and the `metadata_json` column of each row stores the
chunk's metadata dict rendered by `str()` with no other transformation, with
`chunk_text` taken verbatim from the chunk. -/
theorem c8_ingest_attributes (s : Store) (chunks : List Doc) (embs : List (List ℚ))
    (hlen : embs.length = chunks.length) (u src : String) (v : Int)
    (huni : ∀ ch ∈ chunks,
      metaGet ch.metadata "user_id" (PyVal.str "") = PyVal.str u ∧
      metaGet ch.metadata "source" (PyVal.str "") = PyVal.str src ∧
      metaGet ch.metadata "is_public" (PyVal.int 0) = PyVal.int v) :
    (insert_new_chunks s chunks (some embs)).1.pdf
        = s.pdf ++ buildPdfRows s.nextPdfSeq (chunks.zip embs) ∧
    (buildPdfRows s.nextPdfSeq (chunks.zip embs)).length = chunks.length ∧
    (∀ r ∈ buildPdfRows s.nextPdfSeq (chunks.zip embs),
      r.user_id = PyVal.str u ∧ r.source = PyVal.str src ∧ r.is_public = PyVal.int v) ∧
    (buildPdfRows s.nextPdfSeq (chunks.zip embs)).map (fun r => r.metadata_json)
        = chunks.map (fun ch => pyRepr ch.metadata) ∧
    (buildPdfRows s.nextPdfSeq (chunks.zip embs)).map (fun r => r.chunk_text)
        = chunks.map (fun ch => ch.page_content) := by
  have hfst : (chunks.zip embs).map Prod.fst = chunks :=
    List.map_fst_zip chunks embs (le_of_eq hlen.symm)
  refine ⟨rfl, ?_, ?_, ?_, ?_⟩
  · rw [buildPdfRows_length, List.length_zip, hlen]
    exact Nat.min_self _
  · intro r hr
    obtain ⟨m, p, hp, rfl⟩ := buildPdfRows_mem s.nextPdfSeq (chunks.zip embs) r hr
    have hch : p.1 ∈ chunks := (List.of_mem_zip hp).1
    obtain ⟨h1, h2, h3⟩ := huni p.1 hch
    exact ⟨h1, h2, h3⟩
  · rw [buildPdfRows_map_meta]
    have : (chunks.zip embs).map (fun p => pyRepr p.1.metadata)
        = ((chunks.zip embs).map Prod.fst).map (fun ch => pyRepr ch.metadata) := by
      rw [List.map_map]
      rfl
    rw [this, hfst]
  · rw [buildPdfRows_map_text]
    have : (chunks.zip embs).map (fun p => p.1.page_content)
        = ((chunks.zip embs).map Prod.fst).map (fun ch => ch.page_content) := by
      rw [List.map_map]
      rfl
    rw [this, hfst]

/-- A concrete two-chunk batch, both chunks carrying the batch attributes
`user_id = "A"`, `source = "doc"`, `is_public = 1`. -/
def c8ch1 : Doc :=
  ⟨"text one", [("user_id", PyVal.str "A"), ("filename", PyVal.str "doc.pdf"),
    ("source", PyVal.str "doc"), ("is_public", PyVal.int 1)]⟩
def c8ch2 : Doc :=
  ⟨"text two", [("user_id", PyVal.str "A"), ("filename", PyVal.str "doc.pdf"),
    ("source", PyVal.str "doc"), ("is_public", PyVal.int 1), ("page", PyVal.int 2)]⟩

theorem c8_ingest_attributes_witness :
    (insert_new_chunks store0 [c8ch1, c8ch2] (some [[1], [2]])).1.pdf
        = store0.pdf ++ buildPdfRows store0.nextPdfSeq ([c8ch1, c8ch2].zip [[1], [2]]) ∧
    (buildPdfRows store0.nextPdfSeq ([c8ch1, c8ch2].zip [[1], [2]])).length = 2 ∧
    ((buildPdfRow 0 c8ch1 [1]).user_id = PyVal.str "A" ∧
      (buildPdfRow 0 c8ch1 [1]).source = PyVal.str "doc" ∧
      (buildPdfRow 0 c8ch1 [1]).is_public = PyVal.int 1) ∧
    (buildPdfRows store0.nextPdfSeq ([c8ch1, c8ch2].zip [[1], [2]])).map
        (fun r => r.metadata_json)
      = [c8ch1, c8ch2].map (fun ch => pyRepr ch.metadata) ∧
    (buildPdfRows store0.nextPdfSeq ([c8ch1, c8ch2].zip [[1], [2]])).map
        (fun r => r.chunk_text)
      = [c8ch1, c8ch2].map (fun ch => ch.page_content) := by
  have h := c8_ingest_attributes store0 [c8ch1, c8ch2] [[1], [2]] rfl "A" "doc" 1
    (by decide)
  exact ⟨h.1, h.2.1, h.2.2.1 (buildPdfRow 0 c8ch1 [1]) (by decide), h.2.2.2.1, h.2.2.2.2⟩
